import Mathlib

/-!
Verification of the Luminary spec/proxy core (`app/services/proxy_service.py`,
`app/services/spec_service.py`, `app/models.py`, `app/routers/spec.py`).

The Python code is shallowly embedded: JSON/YAML documents become a `Json`
tree, Python `dict`s become insertion-ordered association lists, Python string
operations (`replace`, `split`, `lstrip`, `rstrip`, `lower`, `upper`,
`urllib.parse.quote`) are re-implemented over `List Char`, and the effectful
parts (HTTP fetch, JSON/YAML text parsing) are abstracted as explicit inputs
(`NetOut`, `FetchedDoc`) so the pure control flow of the source is preserved.
-/

namespace Luminary

/-! ## Generic string / list helpers (Python semantics) -/

/-- Boolean prefix test on character lists (propositional equality on heads). -/
def isPre : List Char → List Char → Bool
  | [], _ => true
  | _ :: _, [] => false
  | a :: as, b :: bs => a = b && isPre as bs

/-- Python `sub in s` substring test on character lists. -/
def listContainsSub (sub : List Char) : List Char → Bool
  | [] => sub.isEmpty
  | c :: cs => isPre sub (c :: cs) || listContainsSub sub cs

/-- Python `sub in s` on strings. -/
def containsSub (s sub : String) : Bool := listContainsSub sub.data s.data

/-- Python `s.startswith(pre)`. -/
def pyStartsWith (s pre : String) : Bool := isPre pre.data s.data

/-- Python `s.endswith(suf)`. -/
def pyEndsWith (s suf : String) : Bool := isPre suf.data.reverse s.data.reverse

/-- Python `s.split(sep)` for a one-character separator. -/
def splitChar (sep : Char) : List Char → List (List Char)
  | [] => [[]]
  | c :: cs =>
    match splitChar sep cs with
    | [] => [[]]
    | r :: rs => if c = sep then [] :: r :: rs else (c :: r) :: rs

/-- Python `s.split("/")` lifted to `String`. -/
def pySplit (s : String) (sep : Char) : List String :=
  (splitChar sep s.data).map (fun l => ⟨l⟩)

/-- Python `s.lstrip(chars)` for the character set `{#, /}`. -/
def lstripHashSlash (s : String) : String :=
  ⟨s.data.dropWhile (fun c => c = '#' || c = '/')⟩

/-- Python `s.rstrip("/")`. -/
def rstripSlash (s : String) : String :=
  ⟨(s.data.reverse.dropWhile (fun c => c = '/')).reverse⟩

/-- Python `s.replace(pat, repl)` (leftmost, non-overlapping). The call sites
in the source always pass a non-empty pattern, which the guard reflects. -/
def replaceChars (pat repl : List Char) (s : List Char) : List Char :=
  match s with
  | [] => []
  | c :: cs =>
    if pat ≠ [] ∧ isPre pat (c :: cs) = true then
      repl ++ replaceChars pat repl ((c :: cs).drop pat.length)
    else
      c :: replaceChars pat repl cs
termination_by s.length
decreasing_by
  · simp only [List.length_drop, List.length_cons]
    rename_i h
    have : pat.length ≠ 0 := fun hn => h.1 (List.eq_nil_of_length_eq_zero hn)
    omega
  · simp

/-- Python `s.replace(pat, repl)` on strings. -/
def pyReplace (s pat repl : String) : String := ⟨replaceChars pat.data repl.data s.data⟩

/-- Python ASCII `str.lower()` (spec documents are ASCII-keyed). -/
def strLower (s : String) : String := ⟨s.data.map Char.toLower⟩

/-- Python ASCII `str.upper()`. -/
def strUpper (s : String) : String := ⟨s.data.map Char.toUpper⟩

/-- First-match lookup in an insertion-ordered association list (Python
`dict.get` for the unique-key lists produced by `dict`s). -/
def lookupFirst {α : Type} : List (String × α) → String → Option α
  | [], _ => none
  | (k, v) :: rest, key => if k = key then some v else lookupFirst rest key

/-- Python `d[k] = v` on an insertion-ordered association list: replace the
value in place if the key is present, else append. -/
def dictSet (h : List (String × String)) (k v : String) : List (String × String) :=
  if (h.map Prod.fst).contains k then
    h.map (fun kv => if kv.1 = k then (k, v) else kv)
  else
    h ++ [(k, v)]

/-! ## JSON document tree -/

/-- Parsed JSON/YAML documents (Python nested `dict`/`list`/scalars). Object
fields keep insertion order, as Python `dict`s do. -/
inductive Json where
  | obj (kvs : List (String × Json))
  | arr (elems : List Json)
  | str (s : String)
  | num (n : Int)
  | bool (b : Bool)
  | null
deriving Repr

/-- Python `isinstance(node, dict)`. -/
def Json.isObj : Json → Bool
  | .obj _ => true
  | _ => false

/-- Python `node.get(k)` on a dict node (`none` when absent or not a dict). -/
def Json.get? : Json → String → Option Json
  | .obj kvs, k => lookupFirst kvs k
  | _, _ => none

/-- Python `k in node` for a dict node. -/
def Json.hasKey (j : Json) (k : String) : Bool := (j.get? k).isSome

/-- Python `node.get(k, d)`. -/
def Json.getD (j : Json) (k : String) (d : Json) : Json := (j.get? k).getD d

/-- Python truthiness of a value used where the source writes `if not p:`
(only empty dicts matter at those call sites). -/
def Json.isFalsyObj : Json → Bool
  | .obj [] => true
  | _ => false

/-! ## Data model (`app/models.py`) -/

/-- AuthConfig (`app/models.py`): tag string plus optional fields, exactly as
the pydantic model stores them. `bearerPfx` embeds the source's bearer
prefix field. -/
structure AuthConfig where
  type : String := "none"
  token : Option String := none
  headerName : Option String := none
  bearerPfx : String := "Bearer"
  username : Option String := none
  password : Option String := none
deriving Repr, DecidableEq

/-- Environment record (`app/models.py`). Timestamps are opaque strings. -/
structure Environment where
  id : String
  name : String
  baseUrl : String
  auth : AuthConfig
  verifySsl : Bool := true
  createdAt : String
  updatedAt : String
deriving Repr, DecidableEq

/-- AuthConfigPublic (`app/models.py`): the wire-level projection of an auth
config; secrets are replaced by presence booleans. -/
structure AuthConfigPublic where
  type : String
  headerName : Option String
  bearerPfx : String
  username : Option String
  hasToken : Bool
  hasPassword : Bool
deriving Repr, DecidableEq

/-- EnvironmentPublic (`app/models.py`). -/
structure EnvironmentPublic where
  id : String
  name : String
  baseUrl : String
  verifySsl : Bool
  createdAt : String
  updatedAt : String
  auth : AuthConfigPublic
deriving Repr, DecidableEq

/-- EnvironmentPublic.from_env (`app/models.py` lines 63-80). -/
def EnvironmentPublic.fromEnv (env : Environment) : EnvironmentPublic :=
  { id := env.id
    name := env.name
    baseUrl := env.baseUrl
    verifySsl := env.verifySsl
    createdAt := env.createdAt
    updatedAt := env.updatedAt
    auth :=
      { type := env.auth.type
        headerName := env.auth.headerName
        bearerPfx := env.auth.bearerPfx
        username := env.auth.username
        hasToken := env.auth.token.isSome
        hasPassword := env.auth.password.isSome } }

/-- ProxyRequest (`app/models.py`). Python dicts become ordered association
lists; the request body is an optional JSON value. The timeout field is kept
as a natural number of seconds (the claims never touch it). -/
structure ProxyRequest where
  environmentId : String
  method : String
  path : String
  pathParams : List (String × String) := []
  queryParams : List (String × String) := []
  headers : List (String × String) := []
  body : Option Json := none
  timeout : Nat := 30

/-! ## Proxy service (`app/services/proxy_service.py`) -/

/-- HOP_BY_HOP (`proxy_service.py` lines 10-21). -/
def HOP_BY_HOP : List String :=
  ["connection", "keep-alive", "proxy-authenticate", "proxy-authorization",
   "te", "trailers", "transfer-encoding", "upgrade"]

/-- Python truthiness of an optional string (`None` and `""` are falsy). -/
def truthy : Option String → Bool
  | none => false
  | some s => s ≠ ""

/-- Python `opt or d` for optional strings. -/
def orDefault (o : Option String) (d : String) : String :=
  match o with
  | some s => if s = "" then d else s
  | none => d

/-- ALWAYS_SAFE characters of `urllib.parse.quote` (letters, digits, `_.-~`);
with `safe=""` everything else is percent-encoded. -/
def isSafeChar (c : Char) : Bool :=
  c.isAlphanum || c = '_' || c = '.' || c = '-' || c = '~'

/-- UTF-8 bytes of a code point (what `quote` percent-encodes). -/
def utf8Bytes (n : Nat) : List Nat :=
  if n < 0x80 then [n]
  else if n < 0x800 then [0xC0 + n / 64, 0x80 + n % 64]
  else if n < 0x10000 then [0xE0 + n / 4096, 0x80 + (n / 64) % 64, 0x80 + n % 64]
  else [0xF0 + n / 262144, 0x80 + (n / 4096) % 64, 0x80 + (n / 64) % 64, 0x80 + n % 64]

/-- Upper-case hexadecimal digits. -/
def hexDigits : List Char :=
  ['0', '1', '2', '3', '4', '5', '6', '7', '8', '9', 'A', 'B', 'C', 'D', 'E', 'F']

/-- Hex digit character for a nibble. -/
def hexChar (n : Nat) : Char := hexDigits.getD n '0'

/-- Percent-encoding of one character under `quote(·, safe="")`. -/
def quoteChar (c : Char) : List Char :=
  if isSafeChar c then [c]
  else (utf8Bytes c.toNat).flatMap (fun b => ['%', hexChar (b / 16), hexChar (b % 16)])

/-- Python `urllib.parse.quote(s, safe="")`. -/
def pyQuote (s : String) : String := ⟨s.data.flatMap quoteChar⟩

/-- The substitution function `_substitute_path_params` (`proxy_service.py`
lines 32-35): for each (key, value) of the path-params dict, in insertion
order, replace every occurrence of `{key}` by the percent-encoded value. -/
def substitutePathParams (path : String) (pathParams : List (String × String)) : String :=
  pathParams.foldl
    (fun p kv => pyReplace p ("\x7b" ++ kv.1 ++ "\x7d") (pyQuote kv.2)) path

/-- Auth-derived headers of `_build_headers` (`proxy_service.py` lines
39-46): bearer injects `Authorization` when a token is configured, api-key
injects the configured header name (default `X-API-Key`); basic and none
inject nothing. Python truthiness makes an empty-string token inject
nothing. -/
def authHeaders (env : Environment) : List (String × String) :=
  if env.auth.type = "bearer" ∧ truthy env.auth.token then
    [("Authorization", env.auth.bearerPfx ++ " " ++ env.auth.token.getD "")]
  else if env.auth.type = "api_key" ∧ truthy env.auth.token then
    [(orDefault env.auth.headerName "X-API-Key", env.auth.token.getD "")]
  else []

/-- Loop body of the caller-header merge (`proxy_service.py` lines 49-51):
drop hop-by-hop names, otherwise assign into the dict. -/
def headerStep (h : List (String × String)) (kv : String × String) :
    List (String × String) :=
  if HOP_BY_HOP.contains (strLower kv.1) then h else dictSet h kv.1 kv.2

/-- Header assembly `_build_headers` (`proxy_service.py` lines 38-53):
auth-derived headers first, then caller headers merged on top with
hop-by-hop names dropped from the caller set. -/
def buildHeaders (req : ProxyRequest) (env : Environment) : List (String × String) :=
  req.headers.foldl headerStep (authHeaders env)

/-- Response-header filter `_filter_headers` (`proxy_service.py` lines 66-71). -/
def filterHeaders (headers : List (String × String)) : List (String × String) :=
  headers.filter (fun kv => !(HOP_BY_HOP.contains (strLower kv.1)))

/-- The two transports of `execute_proxy`: the shared pooled client and a
throwaway per-call client. -/
inductive Transport where
  | shared
  | perCall
deriving Repr, DecidableEq

/-- Observable transport events of one `execute_proxy` call (`proxy_service.py`
lines 96-110): creating a temporary client (with its TLS-verification flag),
dispatching the request on a transport, and closing the temporary client. -/
inductive ProxyEvent where
  | createTmpClient (verify : Bool)
  | requestOn (t : Transport)
  | closeTmpClient
deriving Repr, DecidableEq

/-- Everything `execute_proxy` (`proxy_service.py` lines 74-110) decides
before/at dispatch: outbound URL, headers, transport-level basic credentials,
JSON body, method, and the transport event trace. -/
structure DispatchPlan where
  url : String
  headers : List (String × String)
  basicAuth : Option (String × String)
  jsonBody : Option Json
  method : String
  events : List ProxyEvent
deriving Repr

/-- Embedding of `execute_proxy` up to the dispatch (`proxy_service.py`
lines 74-110). -/
def executeProxy (req : ProxyRequest) (env : Environment) : DispatchPlan :=
  let path := substitutePathParams req.path req.pathParams
  let url := rstripSlash env.baseUrl ++ path
  let headers := buildHeaders req env
  let basicAuth :=
    if env.auth.type = "basic" ∧ truthy env.auth.username then
      some (env.auth.username.getD "", env.auth.password.getD "")
    else none
  let events :=
    if !env.verifySsl then
      [ProxyEvent.createTmpClient false, ProxyEvent.requestOn Transport.perCall,
       ProxyEvent.closeTmpClient]
    else
      [ProxyEvent.requestOn Transport.shared]
  { url := url, headers := headers, basicAuth := basicAuth,
    jsonBody := req.body, method := strUpper req.method, events := events }

/-! ## Spec service (`app/services/spec_service.py`) -/

/-- HTTP_METHODS (`spec_service.py` lines 16-18). -/
def HTTP_METHODS : List String :=
  ["get", "post", "put", "patch", "delete", "head", "options", "trace"]

/-- Format sniffing shared by `_fetch_external` (lines 38-42) and `load_spec`
(lines 262-267): YAML when the content type mentions "yaml" or the URL ends
in `.yaml`/`.yml`. -/
def isYamlDeclared (contentType url : String) : Bool :=
  containsSub contentType "yaml" || pyEndsWith url ".yaml" || pyEndsWith url ".yml"

/-- Network outcome of one external GET, with the text abstracted into its
JSON-parse and YAML-parse results (`none` when the parser raises). `fail`
covers transport errors and non-2xx responses (`raise_for_status`). -/
inductive NetOut where
  | fail
  | ok (contentType : String) (jsonParsed yamlParsed : Option Json)

/-- Embedding of `_fetch_external` (`spec_service.py` lines 23-49): returns
the resolved document, the updated per-resolution cache, and whether a
network fetch was issued. -/
def fetchExternal (net : String → NetOut) (cache : List (String × Json))
    (url : String) : Json × List (String × Json) × Bool :=
  match lookupFirst cache url with
  | some v => (v, cache, false)
  | none =>
    match net url with
    | .fail => (Json.obj [], cache ++ [(url, Json.obj [])], true)
    | .ok ct jsonParsed yamlParsed =>
      let parsed := if isYamlDeclared ct url then yamlParsed else jsonParsed
      let result :=
        match parsed with
        | none => Json.obj []
        | some v => if v.isObj then v else Json.obj []
      (result, cache ++ [(url, result)], true)

/-- Loop body of `_resolve_internal_ref` (`spec_service.py` lines 142-147):
descend key by key, returning `{}` at a non-dict node or on a miss, with the
final non-dict check folded into the empty-parts case. -/
def descendLoop : Json → List String → Json
  | node, [] => if node.isObj then node else Json.obj []
  | node, p :: ps =>
    match node with
    | Json.obj kvs => descendLoop ((lookupFirst kvs p).getD (Json.obj [])) ps
    | _ => Json.obj []

/-- Embedding of `_resolve_internal_ref` (`spec_service.py` lines 138-147).
Python's `ref.lstrip("#/")` strips the character set `{#, /}`. -/
def resolveInternalRef (ref : String) (spec : Json) : Json :=
  if !(pyStartsWith ref "#/") then Json.obj []
  else descendLoop spec (pySplit (lstripHashSlash ref) '/')

/-- Project the string out of a `$ref` value. The source would raise on a
non-string `$ref`; the flattening claims never reach that case. -/
def asString : Option Json → String
  | some (.str s) => s
  | _ => ""

/-- Project a JSON array into its element list (`list(...)` in the source,
which would raise on a non-iterable). -/
def asList : Json → List Json
  | .arr l => l
  | _ => []

/-- Embedding of `_resolve_schema` (`spec_service.py` lines 150-153). -/
def resolveSchema (schema : Json) (spec : Json) : Json :=
  if schema.hasKey "$ref" then resolveInternalRef (asString (schema.get? "$ref")) spec
  else schema

/-- Python `d.get(k)` where a stored JSON `null` and a missing key both give
`None`. -/
def Json.getOpt (j : Json) (k : String) : Option Json :=
  match j.get? k with
  | some Json.null => none
  | x => x

/-- ParameterInfo (`app/models.py`), with field values kept as the JSON the
flattener reads out of the document. -/
structure ParameterInfo where
  name : Json
  location : Json
  required : Json
  description : Option Json
  schema : Json
deriving Repr

/-- Embedding of `_extract_parameters` (`spec_service.py` lines 158-181):
path-level parameters first, operation parameters appended, `$ref` entries
resolved internally, empty resolutions dropped. -/
def extractParameters (operation pathItem spec : Json) : List ParameterInfo :=
  let raw := asList (pathItem.getD "parameters" (Json.arr [])) ++
    asList (operation.getD "parameters" (Json.arr []))
  raw.filterMap (fun p0 =>
    if !p0.isObj then none
    else
      let p := if p0.hasKey "$ref" then resolveInternalRef (asString (p0.get? "$ref")) spec
               else p0
      if p.isFalsyObj then none
      else some
        { name := p.getD "name" (Json.str "")
          location := p.getD "in" (Json.str "query")
          required := p.getD "required" (Json.bool false)
          description := p.getOpt "description"
          schema := resolveSchema (p.getD "schema" (Json.obj [])) spec })

/-- Media types searched by `_extract_request_body`, in priority order. -/
def MEDIA_TYPES : List String :=
  ["application/json", "application/x-www-form-urlencoded", "multipart/form-data"]

/-- Embedding of `_extract_request_body` (`spec_service.py` lines 184-204):
(has-body, schema, required flag). -/
def extractRequestBody (operation spec : Json) : Bool × Option Json × Json :=
  match operation.getOpt "requestBody" with
  | none => (false, none, Json.bool false)
  | some rb0 =>
    let rb := if rb0.hasKey "$ref" then resolveInternalRef (asString (rb0.get? "$ref")) spec
              else rb0
    let required := rb.getD "required" (Json.bool false)
    let content := rb.getD "content" (Json.obj [])
    match MEDIA_TYPES.find? (fun m => content.hasKey m) with
    | some m =>
      (true, some (resolveSchema ((content.getD m (Json.obj [])).getD "schema" (Json.obj [])) spec),
       required)
    | none => (true, none, required)

/-- EndpointSummary (`app/models.py`), with document-derived fields kept as
JSON values. -/
structure EndpointSummary where
  method : String
  path : String
  operationId : Option Json
  summary : Option Json
  description : Option Json
  tags : Json
  parameters : List ParameterInfo
  hasRequestBody : Bool
  requestBodySchema : Option Json
  requestBodyRequired : Json
deriving Repr

/-- Embedding of `_flatten_endpoints` (`spec_service.py` lines 207-236). A
non-dict `paths` value (on which the source's `.items()` would raise) yields
no endpoints. -/
def flattenEndpoints (spec : Json) : List EndpointSummary :=
  match spec.getD "paths" (Json.obj []) with
  | Json.obj pathList =>
    pathList.flatMap (fun pe =>
      match pe.2 with
      | Json.obj itemList =>
        itemList.filterMap (fun me =>
          if HTTP_METHODS.contains (strLower me.1) then
            match me.2 with
            | Json.obj opFields =>
              let operation := Json.obj opFields
              let rbr := extractRequestBody operation spec
              some
                { method := strUpper me.1
                  path := pe.1
                  operationId := operation.getOpt "operationId"
                  summary := operation.getOpt "summary"
                  description := operation.getOpt "description"
                  tags := operation.getD "tags" (Json.arr [])
                  parameters := extractParameters operation (Json.obj itemList) spec
                  hasRequestBody := rbr.1
                  requestBodySchema := rbr.2.1
                  requestBodyRequired := rbr.2.2 }
            | _ => none
          else none)
      | _ => [])
  | _ => []

/-- Root document as fetched, with the response text abstracted into its
JSON-parse and YAML-parse results (`none` when the parser raises). -/
structure FetchedDoc where
  contentType : String
  jsonParsed : Option Json
  yamlParsed : Option Json

/-- Failure taxonomy of `load_spec` (`spec_service.py` lines 314-319). -/
inductive LoadError where
  | specFetchError
  | specParseError
deriving Repr, DecidableEq

/-- Outcome of the root GET in `load_spec`: `failure` covers timeouts,
transport errors and non-2xx (`raise_for_status`). -/
inductive FetchOutcome where
  | failure
  | success (doc : FetchedDoc)

/-- Parse-and-validate stage of `load_spec` (`spec_service.py` lines
262-283): pick the declared format, re-parse as YAML only when the first
parse succeeded with a non-mapping, then require a mapping carrying an
`openapi` or `swagger` key. -/
def parseRootDoc (url : String) (doc : FetchedDoc) : Except LoadError Json :=
  let isYaml := isYamlDeclared doc.contentType url
  match (if isYaml then doc.yamlParsed else doc.jsonParsed) with
  | none => Except.error LoadError.specParseError
  | some spec0 =>
    let spec1 :=
      if !spec0.isObj then
        match doc.yamlParsed with
        | some y => y
        | none => spec0
      else spec0
    if !spec1.isObj then Except.error LoadError.specParseError
    else if spec1.hasKey "openapi" || spec1.hasKey "swagger" then Except.ok spec1
    else Except.error LoadError.specParseError

/-- Fetch-then-parse prefix of `load_spec` (`spec_service.py` lines 254-283),
up to the point where the resolved root document is fixed. -/
def loadSpecRoot (url : String) (outcome : FetchOutcome) : Except LoadError Json :=
  match outcome with
  | .failure => Except.error LoadError.specFetchError
  | .success doc => parseRootDoc url doc

/-- LoadedSpec (`app/models.py`). -/
structure LoadedSpec where
  title : Json
  version : String
  description : Option Json
  baseUrl : Option Json
  endpoints : List EndpointSummary
  raw : Json
  sourceUrl : String
  loadedAt : String

/-! ## Spec router (`app/routers/spec.py`) -/

/-- Status code the boundary assigns to each load failure
(`app/routers/spec.py` lines 26-29). -/
def statusOfLoadError : LoadError → Nat
  | .specFetchError => 502
  | .specParseError => 422

/-- Embedding of `load_spec_endpoint` after environment lookup
(`app/routers/spec.py` lines 24-32): the current-spec slot before the call
and the load result determine the new slot and the response status. -/
def loadSpecEndpoint {α : Type} (slot : Option α) (result : Except LoadError α) :
    Option α × Nat :=
  match result with
  | .error e => (slot, statusOfLoadError e)
  | .ok loaded => (some loaded, 200)

/-! ## Statement-side notions used by the claims -/

/-- Failure modes of one external fetch as listed by claim C10: transport
error or non-2xx status (`NetOut.fail`), parse exception, or a non-mapping
parse result. -/
def netOutFails (o : NetOut) (url : String) : Prop :=
  o = NetOut.fail ∨
  ∃ ct j y, o = NetOut.ok ct j y ∧
    ((if isYamlDeclared ct url then y else j) = none ∨
     ∃ v, (if isYamlDeclared ct url then y else j) = some v ∧ v.isObj = false)

/-- Slash-joined key segments (`a/b/c`). -/
def joinSlash : List String → String
  | [] => ""
  | [p] => p
  | p :: ps => p ++ "/" ++ joinSlash ps

/-- Char-level counterpart of `joinSlash`. -/
def charJoin : List (List Char) → List Char
  | [] => []
  | [p] => p
  | p :: ps => p ++ '/' :: charJoin ps

/-- Internal reference string of the form `#/a/b/c` built from its key
segments. -/
def mkRef (parts : List String) : String :=
  "#/" ++ joinSlash parts

/-- Whether the key-by-key descent of claim C7 succeeds: every intermediate
node is a mapping containing the next key and the final node is a mapping. -/
def chainOkB : Json → List String → Bool
  | node, [] => node.isObj
  | node, p :: ps =>
    match node with
    | Json.obj kvs =>
      match lookupFirst kvs p with
      | some w => chainOkB w ps
      | none => false
    | _ => false

/-- Token view of a path template for claim C9: literal characters and
`{name}` placeholders. -/
inductive Tok where
  | lit (c : Char)
  | ph (name : String)
deriving Repr, DecidableEq

/-- Rendering a token list back into the raw template text. -/
def renderToks : List Tok → List Char
  | [] => []
  | .lit c :: ts => c :: renderToks ts
  | .ph n :: ts => '{' :: (n.data ++ ('}' :: renderToks ts))

/-- Well-formedness of a template token: literal characters are not `{`, and
placeholder names contain no braces. -/
def tokWf : Tok → Prop
  | .lit c => c ≠ '{'
  | .ph n => '{' ∉ n.data ∧ '}' ∉ n.data

instance (t : Tok) : Decidable (tokWf t) :=
  match t with
  | .lit c => decidable_of_iff (c ≠ '{') (by simp [tokWf])
  | .ph n => decidable_of_iff ('{' ∉ n.data ∧ '}' ∉ n.data) (by simp [tokWf])

/-- Substituting one path parameter at the token level. -/
def substTok (k : String) (repl : List Char) (t : Tok) : List Tok :=
  match t with
  | .ph n => if n = k then repl.map Tok.lit else [.ph n]
  | .lit c => [.lit c]

/-- Token-level effect of the whole parameter fold of
`_substitute_path_params`. -/
def substAll (params : List (String × String)) (ts : List Tok) : List Tok :=
  params.foldl (fun acc kv => acc.flatMap (substTok kv.1 (pyQuote kv.2).data)) ts

/-- Per-token characterization of the substitution: a placeholder whose name
is in the parameter map becomes the percent-encoded value, any other
placeholder stays verbatim, literals are untouched. -/
def substLookup (params : List (String × String)) (t : Tok) : List Tok :=
  match t with
  | .ph n =>
    match lookupFirst params n with
    | some v => ((pyQuote v).data).map Tok.lit
    | none => [.ph n]
  | .lit c => [.lit c]

/-! ## Concrete inputs used by witnesses and counterexamples -/

/-- Environment whose bearer token is `tok-one`. -/
def envTokOne : Environment :=
  { id := "e1", name := "prod", baseUrl := "https://api.test",
    auth := { type := "bearer", token := some "tok-one", password := some "p1" },
    verifySsl := true, createdAt := "t0", updatedAt := "t0" }

/-- Same environment with a different token and password value (same presence). -/
def envTokTwo : Environment :=
  { id := "e1", name := "prod", baseUrl := "https://api.test",
    auth := { type := "bearer", token := some "tok-two", password := some "p2" },
    verifySsl := true, createdAt := "t0", updatedAt := "t0" }

/-- Environment with an api-key auth whose configured header name is the
hop-by-hop header `Connection`. -/
def envConnHeader : Environment :=
  { id := "e2", name := "conn", baseUrl := "https://api.test",
    auth := { type := "api_key", token := some "sekret", headerName := some "Connection" },
    verifySsl := true, createdAt := "t0", updatedAt := "t0" }

/-- Plain GET request with no caller headers. -/
def plainReq : ProxyRequest :=
  { environmentId := "e2", method := "get", path := "/x" }

/-- Request for the spec's bearer scenario: GET `/items/{id}` with `id = 7`. -/
def itemsReq : ProxyRequest :=
  { environmentId := "e1", method := "get", path := "/items/{id}",
    pathParams := [("id", "7")] }

/-- Request carrying a caller `Authorization` header that must win over the
injected bearer header. -/
def reqCallerAuth : ProxyRequest :=
  { environmentId := "e1", method := "get", path := "/x",
    headers := [("Authorization", "caller-wins")] }

/-- Environment with TLS verification turned off. -/
def envNoVerify : Environment :=
  { id := "e3", name := "insecure", baseUrl := "https://api.test",
    auth := {}, verifySsl := false, createdAt := "t0", updatedAt := "t0" }

/-- Root fetch result whose body is YAML served with a JSON content type:
JSON parsing raises (`jsonParsed = none`) while YAML parsing yields a valid
OpenAPI mapping. -/
def yamlBodyDoc : FetchedDoc :=
  { contentType := "application/json"
    jsonParsed := none
    yamlParsed := some (Json.obj
      [("openapi", Json.str "3.0.3"),
       ("info", Json.obj [("title", Json.str "T"), ("version", Json.str "1")]),
       ("paths", Json.obj [])]) }

/-- Root fetch result that parses (as JSON) to a mapping with neither an
`openapi` nor a `swagger` key. -/
def notASpecDoc : FetchedDoc :=
  { contentType := "application/json"
    jsonParsed := some (Json.obj [("not", Json.str "a spec")])
    yamlParsed := some (Json.obj [("not", Json.str "a spec")]) }

/-- Tiny spec document: `{"openapi": ..., "paths": {"/pets": {"get": {}}}}`. -/
def specPets : Json :=
  Json.obj
    [("openapi", Json.str "3.1.0"),
     ("paths", Json.obj [("/pets", Json.obj [("get", Json.obj [])])])]

/-- The single endpoint summary the flattener produces for `specPets`. -/
def petsGet : EndpointSummary :=
  { method := "GET", path := "/pets", operationId := none, summary := none,
    description := none, tags := Json.arr [], parameters := [],
    hasRequestBody := false, requestBodySchema := none,
    requestBodyRequired := Json.bool false }

/-- Token form of the template `/items/{id}`. -/
def tsItems : List Tok :=
  [.lit '/', .lit 'i', .lit 't', .lit 'e', .lit 'm', .lit 's', .lit '/', .ph "id"]

/-- A loaded-spec value for slot-behaviour witnesses. -/
def loadedPets : LoadedSpec :=
  { title := Json.str "Pets", version := "1.0", description := none,
    baseUrl := none, endpoints := [], raw := specPets,
    sourceUrl := "https://spec.example.com/openapi.json", loadedAt := "t1" }

/-- Document used by the internal-ref witness. -/
def refDoc : Json :=
  Json.obj [("components", Json.obj [("schemas", Json.obj
    [("Pet", Json.obj [("type", Json.str "object")])])])]

/-! ## Theorems -/

/-- Claim C1: for every proxy execution, `verify_ssl = true` dispatches on
the shared pooled transport with no per-call transport created, and
`verify_ssl = false` creates a verification-disabled throwaway transport,
uses it for exactly that one call, discards it, and never touches the shared
transport. -/
theorem claim_C1_transport_branching (req : ProxyRequest) (env : Environment) :
    (executeProxy req env).events =
      (if env.verifySsl then [ProxyEvent.requestOn Transport.shared]
       else [ProxyEvent.createTmpClient false, ProxyEvent.requestOn Transport.perCall,
             ProxyEvent.closeTmpClient]) ∧
    (ProxyEvent.requestOn Transport.shared ∈ (executeProxy req env).events ↔
      env.verifySsl = true) ∧
    ((∃ b, ProxyEvent.createTmpClient b ∈ (executeProxy req env).events) ↔
      env.verifySsl = false) ∧
    (ProxyEvent.requestOn Transport.perCall ∈ (executeProxy req env).events ↔
      env.verifySsl = false) ∧
    ((executeProxy req env).events.count (ProxyEvent.requestOn Transport.perCall) =
      if env.verifySsl then 0 else 1) := by
  cases h : env.verifySsl <;> simp [executeProxy, h]

/-- Claim C2: the public projection of an environment carries no secret
values, only presence flags: environments that differ only in the value (not
the presence) of `token` or `password` have identical public projections. -/
theorem claim_C2_public_projection_secret_free (e1 e2 : Environment)
    (hid : e1.id = e2.id) (hname : e1.name = e2.name)
    (hbase : e1.baseUrl = e2.baseUrl) (hssl : e1.verifySsl = e2.verifySsl)
    (hcre : e1.createdAt = e2.createdAt) (hupd : e1.updatedAt = e2.updatedAt)
    (hty : e1.auth.type = e2.auth.type)
    (hhn : e1.auth.headerName = e2.auth.headerName)
    (hbp : e1.auth.bearerPfx = e2.auth.bearerPfx)
    (hun : e1.auth.username = e2.auth.username)
    (htok : e1.auth.token.isSome = e2.auth.token.isSome)
    (hpw : e1.auth.password.isSome = e2.auth.password.isSome) :
    EnvironmentPublic.fromEnv e1 = EnvironmentPublic.fromEnv e2 := by
  simp only [EnvironmentPublic.fromEnv, EnvironmentPublic.mk.injEq,
    AuthConfigPublic.mk.injEq]
  exact ⟨hid, hname, hbase, hssl, hcre, hupd, hty, hhn, hbp, hun, htok, hpw⟩

/-- Witness for C2: two concrete environments with different token and
password values but identical projections. -/
theorem claim_C2_witness :
    EnvironmentPublic.fromEnv envTokOne = EnvironmentPublic.fromEnv envTokTwo ∧
    envTokOne.auth.token ≠ envTokTwo.auth.token ∧
    envTokOne.auth.password ≠ envTokTwo.auth.password :=
  ⟨claim_C2_public_projection_secret_free envTokOne envTokTwo rfl rfl rfl rfl rfl rfl
      rfl rfl rfl rfl rfl rfl,
   by decide, by decide⟩

/-- Claim C4 (divergence witness): a document served with a JSON content
type from a non-`.yaml` URL whose text is YAML (JSON parsing raises, YAML
parsing yields a valid OpenAPI mapping). The source raises `SpecParseError`
without ever attempting the YAML fallback, because the fallback only runs
when the JSON parse succeeded with a non-mapping. -/
theorem claim_C4_no_yaml_fallback_on_json_error :
    isYamlDeclared yamlBodyDoc.contentType "https://host.test/spec" = false ∧
    yamlBodyDoc.jsonParsed = none ∧
    (∃ y, yamlBodyDoc.yamlParsed = some y ∧ y.isObj = true ∧ y.hasKey "openapi" = true) ∧
    loadSpecRoot "https://host.test/spec" (FetchOutcome.success yamlBodyDoc) =
      Except.error LoadError.specParseError := by
  exact ⟨rfl, rfl, ⟨_, rfl, rfl, rfl⟩, rfl⟩

/-- Claim C5: a fetched root document that parses to a mapping without
`openapi` or `swagger` keys always fails with a parse failure (never a fetch
failure, never success), and the boundary maps it to 422 while leaving the
slot unchanged. -/
theorem claim_C5_missing_discriminator_is_parse_failure (url : String)
    (doc : FetchedDoc) (d : Json) (slot : Option Json)
    (hparse : (if isYamlDeclared doc.contentType url then doc.yamlParsed
               else doc.jsonParsed) = some d)
    (hobj : d.isObj = true)
    (hopen : d.hasKey "openapi" = false) (hswag : d.hasKey "swagger" = false) :
    loadSpecRoot url (FetchOutcome.success doc) =
      Except.error LoadError.specParseError ∧
    loadSpecEndpoint slot (loadSpecRoot url (FetchOutcome.success doc)) = (slot, 422) := by
  have hmain : parseRootDoc url doc = Except.error LoadError.specParseError := by
    simp only [parseRootDoc]
    rw [hparse]
    simp [hobj, hopen, hswag]
  refine ⟨hmain, ?_⟩
  show loadSpecEndpoint slot (parseRootDoc url doc) = (slot, 422)
  rw [hmain]
  rfl

/-- Witness for C5: the `{"not": "a spec"}` document of the test suite. -/
theorem claim_C5_witness :
    loadSpecRoot "https://spec.example.com/bad.json" (FetchOutcome.success notASpecDoc) =
      Except.error LoadError.specParseError ∧
    loadSpecEndpoint (some specPets)
      (loadSpecRoot "https://spec.example.com/bad.json" (FetchOutcome.success notASpecDoc)) =
      (some specPets, 422) :=
  claim_C5_missing_discriminator_is_parse_failure
    "https://spec.example.com/bad.json" notASpecDoc
    (Json.obj [("not", Json.str "a spec")]) (some specPets) rfl rfl rfl rfl

/-- Claim C6: a failed load (fetch or parse failure) leaves the single
current-spec slot unchanged, whatever it held; only a successful load
replaces it. -/
theorem claim_C6_slot_unchanged_on_failure (slot : Option LoadedSpec)
    (e : LoadError) (s : LoadedSpec) :
    loadSpecEndpoint slot (Except.error e) = (slot, statusOfLoadError e) ∧
    (loadSpecEndpoint slot (Except.error e)).1 = slot ∧
    (loadSpecEndpoint slot (Except.ok s)).1 = some s := by
  exact ⟨rfl, rfl, rfl⟩

/-- Appending a fresh key to an association list makes it found. -/
theorem lookupFirst_append_self {α : Type} (cache : List (String × α)) (url : String)
    (v : α) (h : lookupFirst cache url = none) :
    lookupFirst (cache ++ [(url, v)]) url = some v := by
  induction cache with
  | nil => simp [lookupFirst]
  | cons kv rest ih =>
    obtain ⟨k, w⟩ := kv
    by_cases hk : k = url
    · simp [lookupFirst, hk] at h
    · simp only [lookupFirst, List.cons_append, if_neg hk] at h ⊢
      exact ih h

/-- Claim C10: once an external fetch for a URL fails (transport error,
non-2xx, parse failure, or non-mapping result), the empty object is cached
under that URL and every later resolution of the same URL during this load
returns the cached empty object without a new fetch. -/
theorem claim_C10_failed_fetch_is_sticky (net : String → NetOut)
    (cache : List (String × Json)) (url : String)
    (hmiss : lookupFirst cache url = none)
    (hfail : netOutFails (net url) url) :
    fetchExternal net cache url = (Json.obj [], cache ++ [(url, Json.obj [])], true) ∧
    lookupFirst (cache ++ [(url, Json.obj [])]) url = some (Json.obj []) ∧
    (∀ cache2 : List (String × Json), lookupFirst cache2 url = some (Json.obj []) →
      fetchExternal net cache2 url = (Json.obj [], cache2, false)) := by
  refine ⟨?_, lookupFirst_append_self cache url _ hmiss, ?_⟩
  · unfold fetchExternal
    rw [hmiss]
    rcases hfail with h | ⟨ct, j, y, heq, hbad⟩
    · rw [h]
    · rw [heq]
      rcases hbad with hnone | ⟨v, hv, hnotobj⟩
      · simp [hnone]
      · simp [hv, hnotobj]
  · intro cache2 h2
    unfold fetchExternal
    rw [h2]

/-- Witness for C10: an always-failing network, starting from the empty
per-resolution cache. -/
theorem claim_C10_witness :
    fetchExternal (fun _ => NetOut.fail) [] "https://other/doc.yaml" =
      (Json.obj [], [("https://other/doc.yaml", Json.obj [])], true) ∧
    fetchExternal (fun _ => NetOut.fail) [("https://other/doc.yaml", Json.obj [])]
      "https://other/doc.yaml" =
      (Json.obj [], [("https://other/doc.yaml", Json.obj [])], false) := by
  have h := claim_C10_failed_fetch_is_sticky (fun _ => NetOut.fail) []
    "https://other/doc.yaml" rfl (Or.inl rfl)
  exact ⟨by simpa using h.1, h.2.2 _ rfl⟩

/-- Descent starting from the empty object stays the empty object. -/
theorem descendLoop_emptyObj (ps : List String) :
    descendLoop (Json.obj []) ps = Json.obj [] := by
  induction ps with
  | nil => rfl
  | cons p ps ih => simpa [descendLoop, lookupFirst] using ih

/-- A failed descent (non-mapping node, missing key, or non-mapping final
node) yields the empty object. -/
theorem descendLoop_of_chainOkB_false (node : Json) (ps : List String)
    (h : chainOkB node ps = false) : descendLoop node ps = Json.obj [] := by
  induction ps generalizing node with
  | nil => cases node <;> simp_all [chainOkB, descendLoop, Json.isObj]
  | cons p ps ih =>
    cases node with
    | obj kvs =>
      cases hl : lookupFirst kvs p with
      | some w =>
        have hw : chainOkB w ps = false := by simpa [chainOkB, hl] using h
        simpa [descendLoop, hl] using ih w hw
      | none => simp [descendLoop, hl, descendLoop_emptyObj]
    | arr l => rfl
    | str s => rfl
    | num n => rfl
    | bool b => rfl
    | null => rfl

/-- Unfolding equation for `splitChar` on a cons cell. -/
theorem splitChar_cons (sep c : Char) (cs : List Char) :
    splitChar sep (c :: cs) =
      match splitChar sep cs with
      | [] => [[]]
      | r :: rs => if c = sep then [] :: r :: rs else (c :: r) :: rs := rfl

/-- Splitting never produces an empty list of pieces. -/
theorem splitChar_ne_nil (sep : Char) (l : List Char) : splitChar sep l ≠ [] := by
  cases l with
  | nil => simp [splitChar]
  | cons c cs =>
    rw [splitChar_cons]
    cases h : splitChar sep cs with
    | nil => simp
    | cons r rs => by_cases hc : c = sep <;> simp [hc]

/-- Splitting a separator-free list yields that list alone. -/
theorem splitChar_no_sep (sep : Char) (l : List Char) (h : sep ∉ l) :
    splitChar sep l = [l] := by
  induction l with
  | nil => rfl
  | cons c cs ih =>
    have hc : c ≠ sep := by rintro rfl; exact h (List.mem_cons_self ..)
    have hcs : sep ∉ cs := fun hm => h (List.mem_cons_of_mem _ hm)
    rw [splitChar_cons, ih hcs]
    simp [hc]

/-- Splitting peels off a separator-free head piece. -/
theorem splitChar_sep_append (sep : Char) (p t : List Char) (hp : sep ∉ p) :
    splitChar sep (p ++ sep :: t) = p :: splitChar sep t := by
  induction p with
  | nil =>
    show splitChar sep (sep :: t) = [] :: splitChar sep t
    rw [splitChar_cons]
    cases h : splitChar sep t with
    | nil => exact absurd h (splitChar_ne_nil sep t)
    | cons r rs => simp
  | cons c p' ih =>
    have hc : c ≠ sep := by rintro rfl; exact hp (List.mem_cons_self ..)
    have hp' : sep ∉ p' := fun hm => hp (List.mem_cons_of_mem _ hm)
    show splitChar sep (c :: (p' ++ sep :: t)) = (c :: p') :: splitChar sep t
    rw [splitChar_cons, ih hp']
    simp [hc]

/-- Splitting inverts joining for nonempty, slash-free pieces. -/
theorem splitChar_charJoin (parts : List (List Char)) (hne : parts ≠ [])
    (h : ∀ p ∈ parts, '/' ∉ p) :
    splitChar '/' (charJoin parts) = parts := by
  induction parts with
  | nil => exact absurd rfl hne
  | cons p rest ih =>
    cases rest with
    | nil => simpa [charJoin] using splitChar_no_sep '/' p (h p (by simp))
    | cons q rest' =>
      have hj : charJoin (p :: q :: rest') = p ++ '/' :: charJoin (q :: rest') := rfl
      rw [hj, splitChar_sep_append '/' p _ (h p (by simp)),
        ih (by simp) (fun x hx => h x (List.mem_cons_of_mem _ hx))]

/-- Data of the string join is the char join of the data. -/
theorem joinSlash_data (parts : List String) :
    (joinSlash parts).data = charJoin (parts.map String.data) := by
  induction parts with
  | nil => rfl
  | cons p rest ih =>
    cases rest with
    | nil => rfl
    | cons q rest' =>
      show (p ++ "/" ++ joinSlash (q :: rest')).data = _
      simp [String.data_append, ih, charJoin]

/-- Data of a built internal reference. -/
theorem mkRef_data (parts : List String) :
    (mkRef parts).data = '#' :: '/' :: charJoin (parts.map String.data) := by
  simp [mkRef, String.data_append, joinSlash_data]

/-- Claim C7: for every document and internal reference of the form
`#/a/b/c` (nonempty keys free of `/` and `#`), resolution splits on `/`,
drops the leading `#`, and descends key by key; any non-mapping intermediate
node, missing key, or non-mapping final node yields the empty object, and
resolution is total (a Lean function), never a raised failure. -/
theorem claim_C7_internal_ref_descent (spec : Json) (parts : List String)
    (hne : parts ≠ [])
    (hclean : ∀ p ∈ parts, p ≠ "" ∧ '/' ∉ p.data ∧ '#' ∉ p.data) :
    resolveInternalRef (mkRef parts) spec = descendLoop spec parts ∧
    (chainOkB spec parts = false →
      resolveInternalRef (mkRef parts) spec = Json.obj []) := by
  obtain ⟨p0, rest, rfl⟩ := List.exists_cons_of_ne_nil hne
  have hp0 := hclean p0 (by simp)
  have hstart : pyStartsWith (mkRef (p0 :: rest)) "#/" = true := by
    have hd := mkRef_data (p0 :: rest)
    simp only [pyStartsWith, hd]
    simp [isPre]
  have hlstrip : (lstripHashSlash (mkRef (p0 :: rest))).data =
      charJoin ((p0 :: rest).map String.data) := by
    simp only [lstripHashSlash, mkRef_data]
    obtain ⟨c, cs, hc⟩ : ∃ c cs, p0.data = c :: cs := by
      cases hp : p0.data with
      | nil =>
        exact absurd (by cases p0; simp_all) hp0.1
      | cons c cs => exact ⟨c, cs, rfl⟩
    have hcn : (c = '#' || c = '/') = false := by
      have h1 : c ≠ '#' := fun h => hp0.2.2 (h ▸ hc ▸ List.mem_cons_self ..)
      have h2 : c ≠ '/' := fun h => hp0.2.1 (h ▸ hc ▸ List.mem_cons_self ..)
      simp [h1, h2]
    cases rest with
    | nil => simp [charJoin, hc, List.dropWhile, hcn]
    | cons q rest' =>
      show List.dropWhile _ ('#' :: '/' :: (p0.data ++ '/' :: charJoin _)) = _
      simp [hc, List.dropWhile, hcn, charJoin]
  have hsplit : pySplit (lstripHashSlash (mkRef (p0 :: rest))) '/' = p0 :: rest := by
    simp only [pySplit, hlstrip]
    rw [splitChar_charJoin ((p0 :: rest).map String.data) (by simp)
      (by
        intro x hx
        obtain ⟨p, hp, rfl⟩ := List.mem_map.1 hx
        exact (hclean p hp).2.1)]
    simp only [List.map_map]
    have hcomp : ((fun l => (⟨l⟩ : String)) ∘ String.data) = id := funext fun p => rfl
    rw [hcomp, List.map_id]
  have hmain : resolveInternalRef (mkRef (p0 :: rest)) spec =
      descendLoop spec (p0 :: rest) := by
    unfold resolveInternalRef
    rw [hstart, hsplit]
    simp
  refine ⟨hmain, fun hf => ?_⟩
  rw [hmain]
  exact descendLoop_of_chainOkB_false spec _ hf

/-- Witness for C7: a hit and a miss against a concrete components tree. -/
theorem claim_C7_witness :
    resolveInternalRef "#/components/schemas/Pet" refDoc =
      Json.obj [("type", Json.str "object")] ∧
    resolveInternalRef "#/components/schemas/Missing" refDoc = Json.obj [] := by
  have h1 := claim_C7_internal_ref_descent refDoc ["components", "schemas", "Pet"]
    (by decide) (by decide)
  have h2 := claim_C7_internal_ref_descent refDoc ["components", "schemas", "Missing"]
    (by decide) (by decide)
  constructor
  · have hm : mkRef ["components", "schemas", "Pet"] = "#/components/schemas/Pet" := rfl
    rw [← hm, h1.1]
    rfl
  · have hm : mkRef ["components", "schemas", "Missing"] =
      "#/components/schemas/Missing" := rfl
    rw [← hm]
    exact h2.2 (by decide)

/-- Keys absent from an association list are not found. -/
theorem lookupFirst_eq_none {α : Type} (h : List (String × α)) (k : String)
    (hk : k ∉ h.map Prod.fst) : lookupFirst h k = none := by
  induction h with
  | nil => rfl
  | cons kv rest ih =>
    obtain ⟨a, b⟩ := kv
    simp only [List.map_cons, List.mem_cons, not_or] at hk
    show (if a = k then some b else lookupFirst rest k) = none
    rw [if_neg (fun h => hk.1 h.symm)]
    exact ih hk.2

/-- Lookup distributes over list append. -/
theorem lookupFirst_append {α : Type} (l1 l2 : List (String × α)) (key : String) :
    lookupFirst (l1 ++ l2) key =
      match lookupFirst l1 key with
      | some v => some v
      | none => lookupFirst l2 key := by
  induction l1 with
  | nil => simp [lookupFirst]
  | cons kv rest ih =>
    obtain ⟨a, b⟩ := kv
    by_cases hak : a = key <;> simp [lookupFirst, hak, ih]

/-- In-place value replacement makes the key map to the new value. -/
theorem lookupFirst_mapSet (h : List (String × String)) (k v : String)
    (hc : k ∈ h.map Prod.fst) :
    lookupFirst (h.map (fun kv => if kv.1 = k then (k, v) else kv)) k = some v := by
  induction h with
  | nil => simp at hc
  | cons kv rest ih =>
    obtain ⟨a, b⟩ := kv
    simp only [List.map_cons]
    by_cases hak : a = k
    · rw [show (if (a, b).1 = k then (k, v) else (a, b)) = (k, v) from by
        rw [if_pos hak]]
      show (if k = k then some v else _) = some v
      rw [if_pos rfl]
    · rw [show (if (a, b).1 = k then (k, v) else (a, b)) = (a, b) from by
        rw [if_neg hak]]
      have hres : k ∈ rest.map Prod.fst := by
        simp only [List.map_cons, List.mem_cons] at hc
        rcases hc with h1 | h1
        · exact absurd h1.symm hak
        · exact h1
      show (if a = k then some b else _) = some v
      rw [if_neg hak]
      exact ih hres

/-- In-place value replacement leaves other keys untouched. -/
theorem lookupFirst_mapSet_ne (h : List (String × String)) (k v key : String)
    (hne : key ≠ k) :
    lookupFirst (h.map (fun kv => if kv.1 = k then (k, v) else kv)) key =
      lookupFirst h key := by
  induction h with
  | nil => rfl
  | cons kv rest ih =>
    obtain ⟨a, b⟩ := kv
    simp only [List.map_cons]
    by_cases hak : a = k
    · rw [show (if (a, b).1 = k then (k, v) else (a, b)) = (k, v) from by
        rw [if_pos hak]]
      show (if k = key then some v else _) = if a = key then some b else _
      rw [if_neg (fun hkk => hne hkk.symm),
        if_neg (fun hak2 => hne (hak.symm.trans hak2).symm)]
      exact ih
    · rw [show (if (a, b).1 = k then (k, v) else (a, b)) = (a, b) from by
        rw [if_neg hak]]
      show (if a = key then some b else _) = if a = key then some b else _
      by_cases hkey : a = key
      · rw [if_pos hkey, if_pos hkey]
      · rw [if_neg hkey, if_neg hkey]
        exact ih

/-- Python dict assignment: the assigned key maps to the new value. -/
theorem lookupFirst_dictSet_self (h : List (String × String)) (k v : String) :
    lookupFirst (dictSet h k v) k = some v := by
  unfold dictSet
  by_cases hc : k ∈ h.map Prod.fst
  · rw [if_pos (by simpa [List.contains, List.elem_eq_mem] using hc)]
    exact lookupFirst_mapSet h k v hc
  · rw [if_neg (by simpa [List.contains, List.elem_eq_mem] using hc)]
    rw [lookupFirst_append, lookupFirst_eq_none h k hc]
    simp [lookupFirst]

/-- Python dict assignment: other keys keep their values. -/
theorem lookupFirst_dictSet_ne (h : List (String × String)) (a v key : String)
    (hne : key ≠ a) :
    lookupFirst (dictSet h a v) key = lookupFirst h key := by
  unfold dictSet
  split
  · exact lookupFirst_mapSet_ne h a v key hne
  · rw [lookupFirst_append]
    cases hl : lookupFirst h key with
    | some w => rfl
    | none =>
      show lookupFirst [(a, v)] key = none
      show (if a = key then some v else none) = none
      rw [if_neg (fun h => hne h.symm)]

/-- The caller-header fold never changes keys it does not see. -/
theorem foldl_headerStep_preserve (hs : List (String × String))
    (h : List (String × String)) (key : String) (hk : key ∉ hs.map Prod.fst) :
    lookupFirst (hs.foldl headerStep h) key = lookupFirst h key := by
  induction hs generalizing h with
  | nil => rfl
  | cons kv rest ih =>
    obtain ⟨a, b⟩ := kv
    simp only [List.map_cons, List.mem_cons, not_or] at hk
    rw [List.foldl_cons, ih _ hk.2]
    unfold headerStep
    split
    · rfl
    · exact lookupFirst_dictSet_ne h a b key hk.1

/-- The caller-header fold makes every kept caller header map to the
caller-supplied value. -/
theorem foldl_headerStep_mem (hs : List (String × String))
    (h : List (String × String)) (k v : String)
    (hnodup : (hs.map Prod.fst).Nodup) (hmem : (k, v) ∈ hs)
    (hhop : HOP_BY_HOP.contains (strLower k) = false) :
    lookupFirst (hs.foldl headerStep h) k = some v := by
  induction hs generalizing h with
  | nil => simp at hmem
  | cons kv rest ih =>
    obtain ⟨a, b⟩ := kv
    rw [List.foldl_cons]
    have hnd := hnodup
    simp only [List.map_cons] at hnd
    rcases List.mem_cons.1 hmem with heq | hrest
    · injection heq with h1 h2
      subst h1; subst h2
      have hk : k ∉ rest.map Prod.fst := (List.nodup_cons.1 hnd).1
      rw [foldl_headerStep_preserve rest _ k hk]
      unfold headerStep
      have hcond : ¬ (HOP_BY_HOP.contains (strLower (k, v).1) = true) := by
        show ¬ (HOP_BY_HOP.contains (strLower k) = true)
        rw [hhop]
        exact Bool.false_ne_true
      rw [if_neg hcond]
      exact lookupFirst_dictSet_self h k v
    · exact ih (headerStep h (a, b)) (List.nodup_cons.1 hnd).2 hrest

/-- Every entry of a dict assignment comes from the original dict or carries
the assigned key. -/
theorem mem_dictSet (h : List (String × String)) (k v : String) (e : String × String)
    (he : e ∈ dictSet h k v) : (∃ b, (e.1, b) ∈ h) ∨ e.1 = k := by
  unfold dictSet at he
  split at he
  · obtain ⟨kv0, hk0, heq⟩ := List.mem_map.1 he
    by_cases h1 : kv0.1 = k
    · right
      rw [← heq]
      simp [h1]
    · left
      rw [← heq]
      simp only [if_neg h1]
      exact ⟨kv0.2, hk0⟩
  · rcases List.mem_append.1 he with h1 | h2
    · exact Or.inl ⟨e.2, h1⟩
    · right
      have : e = (k, v) := by simpa using h2
      rw [this]

/-- Every key of the assembled headers comes from the auth-derived start or
is a non-hop-by-hop caller key. -/
theorem mem_foldl_headerStep (hs : List (String × String))
    (h : List (String × String)) (e : String × String)
    (he : e ∈ hs.foldl headerStep h) :
    e.1 ∈ h.map Prod.fst ∨
    (e.1 ∈ hs.map Prod.fst ∧ HOP_BY_HOP.contains (strLower e.1) = false) := by
  induction hs generalizing h with
  | nil =>
    left
    exact List.mem_map.2 ⟨e, he, rfl⟩
  | cons kv rest ih =>
    rw [List.foldl_cons] at he
    rcases ih (headerStep h kv) he with h1 | h2
    · unfold headerStep at h1
      split at h1
      · exact Or.inl h1
      · obtain ⟨x, hx, hxe⟩ := List.mem_map.1 h1
        rcases mem_dictSet h kv.1 kv.2 x hx with ⟨b, hb⟩ | hk
        · left
          rw [← hxe]
          exact List.mem_map.2 ⟨(x.1, b), hb, rfl⟩
        · right
          rename_i hcond
          constructor
          · rw [← hxe, hk]
            simp
          · rw [← hxe, hk]
            simpa using hcond
    · exact Or.inr ⟨List.mem_cons_of_mem _ h2.1, h2.2⟩

/-- Claim C3 (counterexample): an api-key environment whose configured
header name is `Connection` puts a hop-by-hop header name into the
outbound request headers, refuting the claim's universal hop-by-hop
exclusion — only caller-supplied headers are filtered, never the
auth-injected ones. -/
theorem claim_C3_counterexample :
    ("Connection", "sekret") ∈ (executeProxy plainReq envConnHeader).headers ∧
    strLower "Connection" ∈ HOP_BY_HOP := by
  constructor
  · show ("Connection", "sekret") ∈ buildHeaders plainReq envConnHeader
    have hb : buildHeaders plainReq envConnHeader = [("Connection", "sekret")] := by
      decide
    rw [hb]
    exact List.mem_singleton_self _
  · decide

/-- Claim C3 (amended): outbound header assembly starts from the
auth-derived headers and merges caller headers on top so an exact-name
caller header always wins; hop-by-hop names are absent from the outbound
headers provided the api-key header name is not itself configured to a
hop-by-hop name, and are always absent from the filtered response
headers. -/
theorem claim_C3_amended_header_assembly (req : ProxyRequest) (env : Environment)
    (hnodup : (req.headers.map Prod.fst).Nodup)
    (hapi : env.auth.type = "api_key" →
      HOP_BY_HOP.contains (strLower (orDefault env.auth.headerName "X-API-Key")) = false) :
    (∀ k v, (k, v) ∈ req.headers → HOP_BY_HOP.contains (strLower k) = false →
      lookupFirst (executeProxy req env).headers k = some v) ∧
    (env.auth.type = "bearer" → truthy env.auth.token = true →
      "Authorization" ∉ req.headers.map Prod.fst →
      lookupFirst (executeProxy req env).headers "Authorization" =
        some (env.auth.bearerPfx ++ " " ++ env.auth.token.getD "")) ∧
    (env.auth.type = "api_key" → truthy env.auth.token = true →
      orDefault env.auth.headerName "X-API-Key" ∉ req.headers.map Prod.fst →
      lookupFirst (executeProxy req env).headers
        (orDefault env.auth.headerName "X-API-Key") =
        some (env.auth.token.getD "")) ∧
    (∀ e ∈ (executeProxy req env).headers,
      HOP_BY_HOP.contains (strLower e.1) = false) ∧
    (∀ hs : List (String × String), ∀ e ∈ filterHeaders hs,
      HOP_BY_HOP.contains (strLower e.1) = false) := by
  refine ⟨?_, ?_, ?_, ?_, ?_⟩
  · intro k v hm hh
    exact foldl_headerStep_mem req.headers (authHeaders env) k v hnodup hm hh
  · intro hty htok habs
    show lookupFirst (buildHeaders req env) "Authorization" = _
    unfold buildHeaders
    rw [foldl_headerStep_preserve req.headers _ "Authorization" habs]
    unfold authHeaders
    rw [if_pos ⟨hty, htok⟩]
    show (if "Authorization" = "Authorization" then _ else _) = _
    rw [if_pos rfl]
  · intro hty htok habs
    show lookupFirst (buildHeaders req env) _ = _
    unfold buildHeaders
    rw [foldl_headerStep_preserve req.headers _ _ habs]
    unfold authHeaders
    rw [if_neg (fun hb => by rw [hty] at hb; exact absurd hb.1 (by decide)),
      if_pos ⟨hty, htok⟩]
    show (if orDefault env.auth.headerName "X-API-Key" =
      orDefault env.auth.headerName "X-API-Key" then _ else _) = _
    rw [if_pos rfl]
  · intro e he
    rcases mem_foldl_headerStep req.headers (authHeaders env) e he with h1 | h2
    · unfold authHeaders at h1
      split at h1
      · have : e.1 = "Authorization" := by simpa using h1
        rw [this]
        decide
      · split at h1
        · have heq : e.1 = orDefault env.auth.headerName "X-API-Key" := by
            simpa using h1
          rename_i hcond
          rw [heq]
          exact hapi hcond.1
        · simp at h1
    · exact h2.2
  · intro hs e he
    have := (List.mem_filter.1 he).2
    simpa using this

/-- Witness for the amended C3: a caller `Authorization` header wins over
the injected bearer header, and no hop-by-hop name survives. -/
theorem claim_C3_amended_witness :
    lookupFirst (executeProxy reqCallerAuth envTokOne).headers "Authorization" =
      some "caller-wins" ∧
    (∀ e ∈ (executeProxy reqCallerAuth envTokOne).headers,
      HOP_BY_HOP.contains (strLower e.1) = false) := by
  have h := claim_C3_amended_header_assembly reqCallerAuth envTokOne
    (by decide) (by decide)
  exact ⟨h.1 "Authorization" "caller-wins" (by decide) (by decide), h.2.2.2.1⟩

/-- ASCII case mapping: upper-casing after lower-casing equals plain
upper-casing. -/
theorem char_toUpper_toLower (c : Char) : c.toLower.toUpper = c.toUpper := by
  by_cases h : 65 ≤ c.toNat ∧ c.toNat ≤ 90
  · have hlow : c.toLower = Char.ofNat (c.toNat + 32) := by
      unfold Char.toLower
      rw [if_pos ⟨h.1, h.2⟩]
    have hv : (c.toNat + 32).isValidChar := Or.inl (by omega)
    have ht : (Char.ofNat (c.toNat + 32)).toNat = c.toNat + 32 := by
      unfold Char.ofNat
      rw [dif_pos hv]
      rfl
    have hup1 : (Char.ofNat (c.toNat + 32)).toUpper =
        Char.ofNat (c.toNat + 32 - 32) := by
      unfold Char.toUpper
      rw [ht, if_pos ⟨by omega, by omega⟩]
    have hup2 : c.toUpper = c := by
      unfold Char.toUpper
      rw [if_neg (by omega)]
    rw [hlow, hup1, hup2]
    have h32 : c.toNat + 32 - 32 = c.toNat := by omega
    rw [h32, Char.ofNat_toNat]
  · have hlow : c.toLower = c := by
      unfold Char.toLower
      rw [if_neg (fun hh => h ⟨hh.1, hh.2⟩)]
    rw [hlow]

/-- String-level consequence for the Python embedding. -/
theorem strUpper_strLower (s : String) : strUpper (strLower s) = strUpper s := by
  simp only [strUpper, strLower, List.map_map]
  have hcomp : (Char.toUpper ∘ Char.toLower) = Char.toUpper :=
    funext char_toUpper_toLower
  rw [hcomp]

/-- Method strings recognized by the flattener upper-case to the eight
upper-case verbs. -/
theorem strUpper_of_recognized (m : String) (h : strLower m ∈ HTTP_METHODS) :
    strUpper m ∈ ["GET", "POST", "PUT", "PATCH", "DELETE", "HEAD", "OPTIONS", "TRACE"] := by
  rw [← strUpper_strLower m]
  simp only [HTTP_METHODS, List.mem_cons, List.not_mem_nil, or_false] at h
  rcases h with h | h | h | h | h | h | h | h <;> rw [h] <;> decide

/-- Membership of a pair makes its key found. -/
theorem lookupFirst_isSome_of_mem {α : Type} (l : List (String × α)) (k : String)
    (v : α) (h : (k, v) ∈ l) : (lookupFirst l k).isSome = true := by
  induction l with
  | nil => simp at h
  | cons kv rest ih =>
    obtain ⟨a, b⟩ := kv
    show (if a = k then some b else lookupFirst rest k).isSome = true
    by_cases hak : a = k
    · rw [if_pos hak]
      rfl
    · rw [if_neg hak]
      rcases List.mem_cons.1 h with heq | hrest
      · injection heq with h1 h2
        exact absurd h1.symm hak
      · exact ih hrest

/-- Claim C8: every endpoint summary the flattener produces has a method
among the eight upper-cased HTTP verbs and a path that is a key of the
resolved document's path table. -/
theorem claim_C8_flatten_invariant (spec : Json) :
    ∀ e ∈ flattenEndpoints spec,
      e.method ∈ ["GET", "POST", "PUT", "PATCH", "DELETE", "HEAD", "OPTIONS", "TRACE"] ∧
      (spec.getD "paths" (Json.obj [])).hasKey e.path = true := by
  intro e he
  unfold flattenEndpoints at he
  cases hp : spec.getD "paths" (Json.obj []) with
  | arr l => rw [hp] at he; simp at he
  | str s => rw [hp] at he; simp at he
  | num n => rw [hp] at he; simp at he
  | bool b => rw [hp] at he; simp at he
  | null => rw [hp] at he; simp at he
  | obj pathList =>
    rw [hp] at he
    obtain ⟨pe, hpe, hein⟩ := List.mem_flatMap.1 he
    cases hi : pe.2 with
    | arr l => rw [hi] at hein; simp at hein
    | str s => rw [hi] at hein; simp at hein
    | num n => rw [hi] at hein; simp at hein
    | bool b => rw [hi] at hein; simp at hein
    | null => rw [hi] at hein; simp at hein
    | obj itemList =>
      rw [hi] at hein
      obtain ⟨me, hme, hsome⟩ := List.mem_filterMap.1 hein
      by_cases hc : HTTP_METHODS.contains (strLower me.1) = true
      · rw [if_pos hc] at hsome
        cases ho : me.2 with
        | arr l => rw [ho] at hsome; simp at hsome
        | str s => rw [ho] at hsome; simp at hsome
        | num n => rw [ho] at hsome; simp at hsome
        | bool b => rw [ho] at hsome; simp at hsome
        | null => rw [ho] at hsome; simp at hsome
        | obj opFields =>
          rw [ho] at hsome
          have he2 := Option.some.inj hsome
          subst he2
          constructor
          · apply strUpper_of_recognized
            simpa using hc
          · show (lookupFirst pathList pe.1).isSome = true
            exact lookupFirst_isSome_of_mem pathList pe.1 pe.2 hpe
      · rw [if_neg hc] at hsome
        simp at hsome

/-- Witness for C8 on the concrete pets document. -/
theorem claim_C8_witness :
    petsGet ∈ flattenEndpoints specPets ∧
    petsGet.method ∈ ["GET", "POST", "PUT", "PATCH", "DELETE", "HEAD", "OPTIONS", "TRACE"] ∧
    (specPets.getD "paths" (Json.obj [])).hasKey petsGet.path = true := by
  have hmem : petsGet ∈ flattenEndpoints specPets := by
    have hfe : flattenEndpoints specPets = [petsGet] := rfl
    rw [hfe]
    exact List.mem_singleton_self _
  exact ⟨hmem, claim_C8_flatten_invariant specPets petsGet hmem⟩

/-- Unfolding equation for `replaceChars` on the empty text. -/
theorem replaceChars_nil (pat repl : List Char) : replaceChars pat repl [] = [] := by
  rw [replaceChars]

/-- Unfolding equation for `replaceChars` on a cons cell. -/
theorem replaceChars_cons (pat repl : List Char) (c : Char) (cs : List Char) :
    replaceChars pat repl (c :: cs) =
      if pat ≠ [] ∧ isPre pat (c :: cs) = true then
        repl ++ replaceChars pat repl ((c :: cs).drop pat.length)
      else c :: replaceChars pat repl cs := by
  rw [replaceChars]

/-- A prefix test against itself followed by anything succeeds. -/
theorem isPre_append_self (x : List Char) (d : Char) (r : List Char) :
    isPre (x ++ [d]) (x ++ d :: r) = true := by
  induction x with
  | nil => simp [isPre]
  | cons a as ih => simp [isPre, ih]

/-- Two distinct brace-free names followed by `}` never prefix-match. -/
theorem isPre_braces_ne (k : List Char) : ∀ (n rest : List Char),
    '}' ∉ k → '}' ∉ n → k ≠ n →
    isPre (k ++ ['}']) (n ++ '}' :: rest) = false := by
  induction k with
  | nil =>
    intro n rest _ hn hne
    cases n with
    | nil => exact absurd rfl hne
    | cons b bs =>
      have hb : b ≠ '}' := fun h => hn (h ▸ List.mem_cons_self ..)
      simp [isPre, Ne.symm hb]
  | cons a as ih =>
    intro n rest hk hn hne
    have ha : a ≠ '}' := fun h => hk (h ▸ List.mem_cons_self ..)
    cases n with
    | nil => simp [isPre, ha]
    | cons b bs =>
      by_cases hab : a = b
      · subst hab
        have hk' : '}' ∉ as := fun h => hk (List.mem_cons_of_mem _ h)
        have hn' : '}' ∉ bs := fun h => hn (List.mem_cons_of_mem _ h)
        have hne' : as ≠ bs := fun h => hne (by rw [h])
        simpa [isPre] using ih bs rest hk' hn' hne'
      · simp [isPre, hab]

/-- Replacement of a brace-leading pattern walks over brace-free text. -/
theorem replaceChars_brace_append (pc repl : List Char) (m rest : List Char)
    (hm : '{' ∉ m) :
    replaceChars ('{' :: pc) repl (m ++ rest) =
      m ++ replaceChars ('{' :: pc) repl rest := by
  induction m with
  | nil => simp
  | cons c m' ih =>
    have hc : c ≠ '{' := fun h => hm (h ▸ List.mem_cons_self ..)
    have hm' : '{' ∉ m' := fun h => hm (List.mem_cons_of_mem _ h)
    rw [List.cons_append, replaceChars_cons]
    have hpre : isPre ('{' :: pc) (c :: (m' ++ rest)) = false := by
      simp [isPre, Ne.symm hc]
    rw [if_neg (fun hcon => by rw [hpre] at hcon; exact absurd hcon.2 (by simp))]
    rw [ih hm']
    simp

/-- Rendering of literal-wrapped characters prepends them verbatim. -/
theorem renderToks_litMap (l : List Char) (ts : List Tok) :
    renderToks (l.map Tok.lit ++ ts) = l ++ renderToks ts := by
  induction l with
  | nil => rfl
  | cons c cs ih => simp [renderToks, ih]

/-- One `str.replace` pass over a rendered template substitutes exactly the
placeholders named by the pattern. -/
theorem replaceChars_render (k : String) (repl : List Char) (ts : List Tok)
    (hwf : ∀ t ∈ ts, tokWf t)
    (hk2 : '}' ∉ k.data) :
    replaceChars ('{' :: (k.data ++ ['}'])) repl (renderToks ts) =
      renderToks (ts.flatMap (substTok k repl)) := by
  induction ts with
  | nil => simp [renderToks, replaceChars_nil]
  | cons t ts' ih =>
    have hwf' : ∀ x ∈ ts', tokWf x := fun x hx => hwf x (List.mem_cons_of_mem _ hx)
    have ihr := ih hwf'
    cases t with
    | lit c =>
      have hc : c ≠ '{' := hwf (.lit c) (List.mem_cons_self ..)
      show replaceChars _ _ (c :: renderToks ts') = _
      rw [replaceChars_cons]
      have hpre : isPre ('{' :: (k.data ++ ['}'])) (c :: renderToks ts') = false := by
        simp [isPre, Ne.symm hc]
      rw [if_neg (fun hcon => by rw [hpre] at hcon; exact absurd hcon.2 (by simp))]
      rw [ihr, List.flatMap_cons]
      simp [substTok, renderToks]
    | ph n =>
      have hn : '{' ∉ n.data ∧ '}' ∉ n.data := hwf (.ph n) (List.mem_cons_self ..)
      by_cases hnk : n = k
      · subst hnk
        show replaceChars _ _ ('{' :: (n.data ++ ('}' :: renderToks ts'))) = _
        rw [replaceChars_cons]
        rw [if_pos ⟨by simp, by simpa [isPre] using isPre_append_self n.data '}' (renderToks ts')⟩]
        have hdrop : ('{' :: (n.data ++ ('}' :: renderToks ts'))).drop
            ('{' :: (n.data ++ ['}'])).length = renderToks ts' := by
          rw [show '{' :: (n.data ++ ('}' :: renderToks ts')) =
            ('{' :: (n.data ++ ['}'])) ++ renderToks ts' from by simp]
          exact List.drop_left _ _
        rw [hdrop, ihr, List.flatMap_cons]
        simp [substTok, renderToks_litMap]
      · have hndata : k.data ≠ n.data := fun h => hnk (by
          cases n with
          | mk nd =>
            cases k with
            | mk kd => exact congrArg String.mk h.symm)
        show replaceChars _ _ ('{' :: (n.data ++ ('}' :: renderToks ts'))) = _
        rw [replaceChars_cons]
        have hpre : isPre ('{' :: (k.data ++ ['}']))
            ('{' :: (n.data ++ ('}' :: renderToks ts'))) = false := by
          have := isPre_braces_ne k.data n.data (renderToks ts') hk2 hn.2 hndata
          simpa [isPre] using this
        rw [if_neg (fun hcon => by rw [hpre] at hcon; exact absurd hcon.2 (by simp))]
        rw [replaceChars_brace_append _ _ n.data _ hn.1]
        rw [replaceChars_cons]
        have hpre2 : isPre ('{' :: (k.data ++ ['}'])) ('}' :: renderToks ts') = false := by
          simp [isPre]
        rw [if_neg (fun hcon => by rw [hpre2] at hcon; exact absurd hcon.2 (by simp))]
        rw [ihr]
        simp [renderToks, List.flatMap_cons, substTok, hnk]

/-- Hexadecimal digit characters are never braces. -/
theorem hexChar_ne_brace (m : Nat) : hexChar m ≠ '{' ∧ hexChar m ≠ '}' := by
  unfold hexChar
  rw [List.getD_eq_getElem?_getD]
  cases h : hexDigits[m]? with
  | none => exact ⟨by decide, by decide⟩
  | some x =>
    have hx : x ∈ hexDigits := List.getElem?_mem h
    have hall : ∀ y ∈ hexDigits, y ≠ '{' ∧ y ≠ '}' := by decide
    simpa using hall x hx

/-- Percent-encoded output of `quote(·, safe="")` contains no braces. -/
theorem mem_pyQuote_ne_brace (v : String) (c : Char) (h : c ∈ (pyQuote v).data) :
    c ≠ '{' ∧ c ≠ '}' := by
  obtain ⟨d, hd, hc⟩ := List.mem_flatMap.1 h
  unfold quoteChar at hc
  split at hc
  · rename_i hsafe
    have hcd : c = d := by simpa using hc
    subst hcd
    constructor <;> rintro rfl <;> exact absurd hsafe (by decide)
  · obtain ⟨b, hb, hcb⟩ := List.mem_flatMap.1 hc
    simp only [List.mem_cons, List.not_mem_nil, or_false] at hcb
    rcases hcb with rfl | rfl | rfl
    · exact ⟨by decide, by decide⟩
    · exact hexChar_ne_brace _
    · exact hexChar_ne_brace _

/-- Token-level substitution with a brace-free replacement keeps templates
well-formed. -/
theorem wf_substTok (ts : List Tok) (k : String) (repl : List Char)
    (hwf : ∀ t ∈ ts, tokWf t) (hrepl : '{' ∉ repl) :
    ∀ t ∈ ts.flatMap (substTok k repl), tokWf t := by
  intro t ht
  obtain ⟨x, hx, htx⟩ := List.mem_flatMap.1 ht
  cases x with
  | lit c =>
    have : t = Tok.lit c := by simpa [substTok] using htx
    rw [this]
    exact hwf _ hx
  | ph n =>
    by_cases hnk : n = k
    · rw [show substTok k repl (Tok.ph n) = repl.map Tok.lit from by
        simp [substTok, hnk]] at htx
      obtain ⟨c, hcr, hct⟩ := List.mem_map.1 htx
      rw [← hct]
      exact fun h => hrepl (h ▸ hcr)
    · have : t = Tok.ph n := by simpa [substTok, hnk] using htx
      rw [this]
      exact hwf _ hx

/-- Unfolding equation for the parameter fold. -/
theorem substitutePathParams_cons (path : String) (kv : String × String)
    (rest : List (String × String)) :
    substitutePathParams path (kv :: rest) =
      substitutePathParams (pyReplace path ("\x7b" ++ kv.1 ++ "\x7d") (pyQuote kv.2)) rest := by
  simp [substitutePathParams, List.foldl_cons]

/-- The parameter fold of `_substitute_path_params` over a rendered template
is exactly the token-level substitution. -/
theorem substitutePathParams_render (params : List (String × String)) (ts : List Tok)
    (hwf : ∀ t ∈ ts, tokWf t)
    (hnames : ∀ kv ∈ params, '}' ∉ (kv.1 : String).data) :
    (substitutePathParams ⟨renderToks ts⟩ params).data =
      renderToks (substAll params ts) := by
  induction params generalizing ts with
  | nil => rfl
  | cons kv rest ih =>
    have hq : '{' ∉ (pyQuote kv.2).data :=
      fun h => (mem_pyQuote_ne_brace kv.2 '{' h).1 rfl
    have hpat : ("\x7b" ++ kv.1 ++ "\x7d").data = '{' :: (kv.1.data ++ ['}']) := by
      simp
    have hstep : pyReplace ⟨renderToks ts⟩ ("\x7b" ++ kv.1 ++ "\x7d") (pyQuote kv.2) =
        ⟨renderToks (ts.flatMap (substTok kv.1 (pyQuote kv.2).data))⟩ := by
      show (⟨replaceChars ("\x7b" ++ kv.1 ++ "\x7d").data (pyQuote kv.2).data
        (renderToks ts)⟩ : String) = _
      rw [hpat, replaceChars_render kv.1 (pyQuote kv.2).data ts hwf
        (hnames kv (List.mem_cons_self ..))]
    have hrw : substAll (kv :: rest) ts =
        substAll rest (ts.flatMap (substTok kv.1 (pyQuote kv.2).data)) := by
      simp [substAll, List.foldl_cons]
    rw [substitutePathParams_cons, hstep, hrw]
    exact ih (ts.flatMap (substTok kv.1 (pyQuote kv.2).data))
      (wf_substTok ts kv.1 (pyQuote kv.2).data hwf hq)
      (fun x hx => hnames x (List.mem_cons_of_mem _ hx))

/-- A template with no parameters at all keeps every token. -/
theorem flatMap_substLookup_nil (ts : List Tok) :
    ts.flatMap (substLookup []) = ts := by
  induction ts with
  | nil => rfl
  | cons t rest ih =>
    cases t <;> simp [substLookup, lookupFirst, ih]

/-- Fully-substituted literal runs are fixed points of later lookups. -/
theorem flatMap_litMap_substLookup (l : List Char) (ps : List (String × String)) :
    (l.map Tok.lit).flatMap (substLookup ps) = l.map Tok.lit := by
  induction l with
  | nil => rfl
  | cons c cs ih => simp [substLookup, ih]

/-- The left-to-right parameter fold is pointwise first-match lookup. -/
theorem substAll_eq_substLookup (params : List (String × String)) (ts : List Tok) :
    substAll params ts = ts.flatMap (substLookup params) := by
  induction params generalizing ts with
  | nil => exact (flatMap_substLookup_nil ts).symm
  | cons kv rest ih =>
    obtain ⟨k1, v1⟩ := kv
    have h1 : substAll ((k1, v1) :: rest) ts =
        substAll rest (ts.flatMap (substTok k1 (pyQuote v1).data)) := by
      simp [substAll, List.foldl_cons]
    rw [h1, ih, List.flatMap_assoc]
    have hfun : ∀ x : Tok,
        (substTok k1 (pyQuote v1).data x).flatMap (substLookup rest) =
          substLookup ((k1, v1) :: rest) x := by
      intro x
      cases x with
      | lit c => simp [substTok, substLookup, lookupFirst]
      | ph n =>
        by_cases hnk : n = k1
        · have h2 : substTok k1 (pyQuote v1).data (Tok.ph n) =
              (pyQuote v1).data.map Tok.lit := by simp [substTok, hnk]
          rw [h2, flatMap_litMap_substLookup]
          have hl : lookupFirst ((k1, v1) :: rest) n = some v1 := by
            show (if k1 = n then some v1 else lookupFirst rest n) = some v1
            rw [if_pos hnk.symm]
          show List.map Tok.lit (pyQuote v1).data =
            (match lookupFirst ((k1, v1) :: rest) n with
             | some v => List.map Tok.lit (pyQuote v).data
             | none => [Tok.ph n])
          rw [hl]
        · have h2 : substTok k1 (pyQuote v1).data (Tok.ph n) = [Tok.ph n] := by
            simp [substTok, hnk]
          rw [h2]
          have hflat : [Tok.ph n].flatMap (substLookup rest) =
              substLookup rest (Tok.ph n) := by simp
          rw [hflat]
          have hl : lookupFirst ((k1, v1) :: rest) n = lookupFirst rest n := by
            show (if k1 = n then some v1 else lookupFirst rest n) = lookupFirst rest n
            rw [if_neg (fun h => hnk h.symm)]
          show (match lookupFirst rest n with
             | some v => List.map Tok.lit (pyQuote v).data
             | none => [Tok.ph n]) =
            (match lookupFirst ((k1, v1) :: rest) n with
             | some v => List.map Tok.lit (pyQuote v).data
             | none => [Tok.ph n])
          rw [hl]
    rw [funext hfun]

/-- Claim C9: path substitution replaces every `{name}` placeholder whose
name appears in the path-parameter map by its percent-encoded value
(`substLookup` maps such a placeholder to the quoted value and leaves any
unmatched placeholder verbatim), and the outbound URL is the environment's
base URL with trailing slashes stripped, concatenated with the substituted
path. -/
theorem claim_C9_path_substitution (req : ProxyRequest) (env : Environment)
    (ts : List Tok)
    (hpath : req.path = ⟨renderToks ts⟩)
    (hwf : ∀ t ∈ ts, tokWf t)
    (hnames : ∀ kv ∈ req.pathParams, '}' ∉ (kv.1 : String).data) :
    substitutePathParams req.path req.pathParams =
      ⟨renderToks (ts.flatMap (substLookup req.pathParams))⟩ ∧
    (executeProxy req env).url =
      rstripSlash env.baseUrl ++
        ⟨renderToks (ts.flatMap (substLookup req.pathParams))⟩ := by
  have hsub : substitutePathParams req.path req.pathParams =
      ⟨renderToks (substAll req.pathParams ts)⟩ := by
    rw [hpath]
    have hd := substitutePathParams_render req.pathParams ts hwf hnames
    calc substitutePathParams (⟨renderToks ts⟩ : String) req.pathParams
        = ⟨(substitutePathParams ⟨renderToks ts⟩ req.pathParams).data⟩ := rfl
      _ = ⟨renderToks (substAll req.pathParams ts)⟩ := by rw [hd]
  rw [substAll_eq_substLookup] at hsub
  refine ⟨hsub, ?_⟩
  show rstripSlash env.baseUrl ++ substitutePathParams req.path req.pathParams = _
  rw [hsub]

/-- Witness for C9: the spec's own scenario, GET `/items/{id}` with
`id = 7` against `https://api.test`. -/
theorem claim_C9_witness :
    substitutePathParams itemsReq.path itemsReq.pathParams = "/items/7" ∧
    (executeProxy itemsReq envTokOne).url = "https://api.test/items/7" := by
  have h := claim_C9_path_substitution itemsReq envTokOne tsItems rfl
    (by decide) (by decide)
  constructor
  · rw [h.1]
    rfl
  · rw [h.2]
    rfl

/-- Witness for C1 at concrete environments on both sides of the branch. -/
theorem claim_C1_witness :
    (executeProxy plainReq envNoVerify).events =
      [ProxyEvent.createTmpClient false, ProxyEvent.requestOn Transport.perCall,
       ProxyEvent.closeTmpClient] ∧
    (executeProxy itemsReq envTokOne).events =
      [ProxyEvent.requestOn Transport.shared] := by
  have h1 := claim_C1_transport_branching plainReq envNoVerify
  have h2 := claim_C1_transport_branching itemsReq envTokOne
  constructor
  · rw [h1.1]
    rfl
  · rw [h2.1]
    rfl

/-- Witness for C6 at a concrete slot and both failure kinds. -/
theorem claim_C6_witness :
    (loadSpecEndpoint (some loadedPets) (Except.error LoadError.specFetchError)).1 =
      some loadedPets ∧
    loadSpecEndpoint (some loadedPets) (Except.error LoadError.specFetchError) =
      (some loadedPets, 502) ∧
    (loadSpecEndpoint (some loadedPets) (Except.error LoadError.specParseError)).1 =
      some loadedPets := by
  have h1 := claim_C6_slot_unchanged_on_failure (some loadedPets)
    LoadError.specFetchError loadedPets
  have h2 := claim_C6_slot_unchanged_on_failure (some loadedPets)
    LoadError.specParseError loadedPets
  exact ⟨h1.2.1, h1.1, h2.2.1⟩

end Luminary
